import Mathlib

/-!
Verification development for the legal-document structure extractor
(`src/parsers/base_parser.py`, `hierarchical_parser.py`, `decision_parser.py`,
`directive_parser.py`, `plan_parser.py`).

The HTML-to-line extraction performed by BeautifulSoup (`get_soup`,
`find_all`, `get_text`) is external to the repository; it is modelled by an
abstract `extract : String → List Element` argument, where an `Element`
carries exactly the data the per-line loop reads from a bs4 element: its
visible text, its boldness flag (`BaseParser.is_bold`), and the `name`
attribute of an inline `<a>` anchor if present.  Everything from that point
on — `clean_text`, the `PATTERNS` regex table, `detect_anchor_type`,
`LegalNode`, and the four `parse` loops — is translated here from the
Python source.

Python's regexes are compiled to explicit character-list matchers.  The
`\s`, `\d`, `[A-Z]` classes and `str.lower`/`str.isupper` are modelled on
the repertoire the documents use: ASCII plus the precomposed Vietnamese
letters (Python's versions are full-Unicode; the difference is irrelevant
for the strings handled here and is noted where it applies).

Python list indexing (`stack[-1]`) can raise `IndexError`; the parse loops
are therefore embedded in `Except String`, raising exactly where the
Python would attempt `stack[-1]` on an empty stack.  All other partial
operations in the source are locally guarded (`if not text: continue`,
`if attachments:`, `len(stack) > 1`) and are embedded with the same guard.
-/

/-- Lowercase mapping used by Python's `str.lower()` and `re.IGNORECASE`,
on the repertoire of these documents: ASCII letters plus precomposed
Vietnamese letters. Other characters map to themselves. -/
def pyToLower (c : Char) : Char :=
  if 'A' ≤ c ∧ c ≤ 'Z' then Char.ofNat (c.toNat + 32)
  else match c with
  | 'À' => 'à' | 'Á' => 'á' | 'Ả' => 'ả' | 'Ã' => 'ã' | 'Ạ' => 'ạ'
  | 'Â' => 'â' | 'Ấ' => 'ấ' | 'Ầ' => 'ầ' | 'Ẩ' => 'ẩ' | 'Ẫ' => 'ẫ' | 'Ậ' => 'ậ'
  | 'Ă' => 'ă' | 'Ắ' => 'ắ' | 'Ằ' => 'ằ' | 'Ẳ' => 'ẳ' | 'Ẵ' => 'ẵ' | 'Ặ' => 'ặ'
  | 'È' => 'è' | 'É' => 'é' | 'Ẻ' => 'ẻ' | 'Ẽ' => 'ẽ' | 'Ẹ' => 'ẹ'
  | 'Ê' => 'ê' | 'Ế' => 'ế' | 'Ề' => 'ề' | 'Ể' => 'ể' | 'Ễ' => 'ễ' | 'Ệ' => 'ệ'
  | 'Ì' => 'ì' | 'Í' => 'í' | 'Ỉ' => 'ỉ' | 'Ĩ' => 'ĩ' | 'Ị' => 'ị'
  | 'Ò' => 'ò' | 'Ó' => 'ó' | 'Ỏ' => 'ỏ' | 'Õ' => 'õ' | 'Ọ' => 'ọ'
  | 'Ô' => 'ô' | 'Ố' => 'ố' | 'Ồ' => 'ồ' | 'Ổ' => 'ổ' | 'Ỗ' => 'ỗ' | 'Ộ' => 'ộ'
  | 'Ơ' => 'ơ' | 'Ớ' => 'ớ' | 'Ờ' => 'ờ' | 'Ở' => 'ở' | 'Ỡ' => 'ỡ' | 'Ợ' => 'ợ'
  | 'Ù' => 'ù' | 'Ú' => 'ú' | 'Ủ' => 'ủ' | 'Ũ' => 'ũ' | 'Ụ' => 'ụ'
  | 'Ư' => 'ư' | 'Ứ' => 'ứ' | 'Ừ' => 'ừ' | 'Ử' => 'ử' | 'Ữ' => 'ữ' | 'Ự' => 'ự'
  | 'Ỳ' => 'ỳ' | 'Ý' => 'ý' | 'Ỷ' => 'ỷ' | 'Ỹ' => 'ỹ' | 'Ỵ' => 'ỵ'
  | 'Đ' => 'đ'
  | _ => c

/-- Uppercase test used for Python's `str.isupper()` on a single character:
a character is uppercase exactly when lowering changes it (true on the
modelled repertoire). -/
def pyIsUpper (c : Char) : Bool := pyToLower c != c

/-- Whitespace class of Python's `\s` / `str.strip()` (ASCII part; the
cleaned lines fed to the matchers contain only `' '` anyway). -/
def pyIsSpace (c : Char) : Bool :=
  c = ' ' || c = '\t' || c = '\n' || c = '\r' || c = '\x0b' || c = '\x0c'

/-- Drop leading whitespace characters. -/
def dropLeading : List Char → List Char
  | [] => []
  | c :: cs => if pyIsSpace c then dropLeading cs else c :: cs

/-- Python `str.strip()` on a character list: drop trailing, then leading
whitespace. -/
def stripL (l : List Char) : List Char :=
  dropLeading (dropLeading l.reverse).reverse

/-- Python `str.strip()`. -/
def pyStrip (s : String) : String := ⟨stripL s.data⟩

/-- Collapse every maximal run of whitespace into a single ASCII space
(`re.sub(r'\s+', ' ', ...)`). -/
def collapseWs : List Char → List Char
  | [] => []
  | [c] => [if pyIsSpace c then ' ' else c]
  | c :: d :: rest =>
    if pyIsSpace c && pyIsSpace d then collapseWs (d :: rest)
    else (if pyIsSpace c then ' ' else c) :: collapseWs (d :: rest)

/-- `BaseParser.clean_text`: replace NBSP by space, delete `\r`, collapse
whitespace runs, strip.  (`if not text: return ""` is absorbed: all the
steps fix the empty string.) -/
def clean_text (s : String) : String :=
  ⟨stripL (collapseWs ((s.data.map (fun c => if c = '\xa0' then ' ' else c)).filter
    (fun c => c ≠ '\r')))⟩

/-- Case-insensitive literal match: consume `pat` (given lowercased) from
the head of the input, returning the rest. -/
def ciTake : List Char → List Char → Option (List Char)
  | [], l => some l
  | _ :: _, [] => none
  | p :: ps, c :: cs => if pyToLower c = p then ciTake ps cs else none

/-- Regex `\s+` followed by greedy skip: require at least one whitespace
character, then drop the rest of the run. -/
def reqSpace1 : List Char → Option (List Char)
  | [] => none
  | c :: cs => if pyIsSpace c then some (cs.dropWhile pyIsSpace) else none

/-- Regex `\d+` (ASCII digits, as in these documents): require at least one
digit, then drop the rest of the run. -/
def reqDigit1 : List Char → Option (List Char)
  | [] => none
  | c :: cs => if c.isDigit then some (cs.dropWhile Char.isDigit) else none

/-- First character is in ci `[IVX]`. -/
def headIvx : List Char → Bool
  | [] => false
  | c :: _ => pyToLower c = 'i' || pyToLower c = 'v' || pyToLower c = 'x'

/-- First character is in ci `[IVX0-9]`. -/
def headIvxDigit : List Char → Bool
  | [] => false
  | c :: _ => pyToLower c = 'i' || pyToLower c = 'v' || pyToLower c = 'x' || c.isDigit

/-- First character is in ci `[A-Z]`. -/
def headAsciiAlpha : List Char → Bool
  | [] => false
  | c :: _ => 'a' ≤ pyToLower c ∧ pyToLower c ≤ 'z'

/-- Character of ci `[IVX]`. -/
def isIvx (c : Char) : Bool :=
  pyToLower c = 'i' || pyToLower c = 'v' || pyToLower c = 'x'

/-- PATTERNS['recipients'] = `^\s*(Nơi nhận|Nơi gửi)[:;]\s*(.*)` (ci), as a
match test. -/
def matchRecipients (s : String) : Bool :=
  let l := s.data.dropWhile pyIsSpace
  let chk := fun (k : String) =>
    match ciTake k.data l with
    | some (c :: _) => c = ':' || c = ';'
    | _ => false
  chk "nơi nhận" || chk "nơi gửi"

/-- Keyword alternatives of PATTERNS['signature'], lowercased. -/
def sigKeys : List String :=
  ["tm.", "kt.", "tl.", "pp.", "chủ tịch", "thủ tướng", "bộ trưởng",
   "thống đốc", "giám đốc", "tổng giám đốc", "quyền", "ký thay", "thay mặt"]

/-- PATTERNS['signature'] = `^\s*(TM\.|KT\.|...|Thay mặt).*\s*$` (ci), as a
match test. -/
def matchSignature (s : String) : Bool :=
  let l := s.data.dropWhile pyIsSpace
  sigKeys.any fun k => (ciTake k.data l).isSome

/-- PATTERNS['article'] = `^\s*(Điều\s+\d+|ĐIỀU\s+\d+)[\.:]?\s*(.*)` (ci),
as a match test (the trailing groups always match). -/
def matchArticle (s : String) : Bool :=
  (((ciTake "điều".data (s.data.dropWhile pyIsSpace)).bind reqSpace1).bind
    reqDigit1).isSome

/-- PATTERNS['appendix'] = `^\s*(Phụ lục|PHỤ LỤC|Mẫu số|MẪU SỐ)\s+[0-9IVX]*.*\s*$`
(ci): keyword then at least one whitespace, rest arbitrary. -/
def matchAppendix (s : String) : Bool :=
  let l := s.data.dropWhile pyIsSpace
  let chk := fun (k : String) => ((ciTake k.data l).bind reqSpace1).isSome
  chk "phụ lục" || chk "mẫu số"

/-- Letter class ci `[a-zđ]` of PATTERNS['point']. -/
def pointLetter (c : Char) : Bool :=
  ('a' ≤ pyToLower c ∧ pyToLower c ≤ 'z') || pyToLower c = 'đ'

/-- PATTERNS['point'] = `^\s*([a-zđ])[\)\\.]\s+(.*)` (ci), as a match test:
one letter, then `)`, `\` or `.`, then at least one whitespace. -/
def matchPoint (s : String) : Bool :=
  match s.data.dropWhile pyIsSpace with
  | c :: d :: e :: _ => pointLetter c && (d = ')' || d = '\\' || d = '.') && pyIsSpace e
  | _ => false

/-- Greedy scan for `\d+(\.\d+)*` after the first digit has been checked:
`acc` holds the (reversed) number consumed so far.  Returns the matched
number and the rest of the input. -/
def numScan : List Char → List Char → List Char × List Char
  | acc, [] => (acc.reverse, [])
  | acc, c :: cs =>
    if c.isDigit then numScan (c :: acc) cs
    else if c = '.' then
      match cs with
      | d :: ds => if d.isDigit then numScan (d :: '.' :: acc) ds
                   else (acc.reverse, c :: cs)
      | [] => (acc.reverse, [c])
    else (acc.reverse, c :: cs)

/-- PATTERNS['loose_numbering'] = `^\s*(\d+(\.\d+)*)\.?\s+(.*)`: returns
`(group(1), group(3))` on success.  The greedy scan is equivalent to the
backtracking regex here (shrinking `\d+(\.\d+)*` can never make `\.?\s+`
succeed, since the abandoned character is a digit or a dot). -/
def matchLoose (s : String) : Option (String × String) :=
  let l := s.data.dropWhile pyIsSpace
  match l with
  | c :: _ =>
    if c.isDigit then
      let (number, r) := numScan [] l
      let r2 := match r with
        | '.' :: rest => rest
        | other => other
      match r2 with
      | e :: es => if pyIsSpace e then some (⟨number⟩, ⟨es.dropWhile pyIsSpace⟩) else none
      | [] => none
    else none
  | [] => none

/-- Delimiter class `[\.\:\n]` of the part/chapter/section preambles. -/
def delimChar (c : Char) : Bool := c = '.' || c = ':' || c = '\n'

/-- Scan for a match of `core` at positions 1.., tracking whether the
prefix so far matches `.*[\.\:\n]\s*` (the flag `dc`). -/
def scanFrom (core : List Char → Bool) : Bool → List Char → Bool
  | _, [] => false
  | dc, c :: cs =>
    let dc2 := delimChar c || (dc && pyIsSpace c)
    (dc2 && core cs) || scanFrom core dc2 cs

/-- Match `(?:^|.*[\.\:\n]\s*)` followed by `core` somewhere in the line. -/
def matchPre (core : List Char → Bool) (l : List Char) : Bool :=
  core l || scanFrom core false l

/-- Core of PATTERNS['part'] (ci): `Phần\s+(?:thứ\s+)?[IVX]+` or
`Phần\s+[A-Z]+` (the upper/lowercase spellings collapse under ci). -/
def partCore (l : List Char) : Bool :=
  match ciTake "phần".data l with
  | some r =>
    match reqSpace1 r with
    | some r2 =>
      headAsciiAlpha r2 ||
      (match ciTake "thứ".data r2 with
       | some r3 => match reqSpace1 r3 with
                    | some r4 => headIvx r4
                    | none => false
       | none => false)
    | none => false
  | none => false

/-- Core of PATTERNS['chapter'] (ci): `Chương\s+[IVX0-9]+` or
`[IVX]+\.\s+`. -/
def chapterCore (l : List Char) : Bool :=
  (match ciTake "chương".data l with
   | some r => match reqSpace1 r with
               | some r2 => headIvxDigit r2
               | none => false
   | none => false) ||
  (let rm := l.takeWhile isIvx
   let rest := l.dropWhile isIvx
   rm ≠ [] &&
   (match rest with
    | '.' :: e :: _ => pyIsSpace e
    | _ => false))

/-- Core of PATTERNS['section'] (ci): `Mục\s+[0-9]+`. -/
def sectionCore (l : List Char) : Bool :=
  match ciTake "mục".data l with
  | some r => match reqSpace1 r with
              | some r2 => (match r2 with
                            | c :: _ => c.isDigit
                            | [] => false)
              | none => false
  | none => false

/-- PATTERNS['part'] as a match test. -/
def matchPart (s : String) : Bool := matchPre partCore s.data

/-- PATTERNS['chapter'] as a match test. -/
def matchChapter (s : String) : Bool := matchPre chapterCore s.data

/-- PATTERNS['section'] as a match test. -/
def matchSection (s : String) : Bool := matchPre sectionCore s.data

/-- PlanParser.ROMAN_SECTION = `^\s*([IVX]+)\.\s*(.*)` (ci): returns
`(group(1), group(2))` on success. -/
def matchRoman (s : String) : Option (String × String) :=
  let l := s.data.dropWhile pyIsSpace
  let rm := l.takeWhile isIvx
  let rest := l.dropWhile isIvx
  if rm = [] then none
  else match rest with
  | '.' :: r2 => some (⟨rm⟩, ⟨r2.dropWhile pyIsSpace⟩)
  | _ => none

/-- `LegalNode` (base_parser.py): a node of the legal-document hierarchy.
`level`: 0=Doc, 1=Part, 2=Chapter, 3=Section, 4=Article, 5=Clause, 6=Point
per the source's own field documentation. -/
inductive LegalNode where
  | mk (level : Nat) (type : String) (title : String) (content : List String)
       (children : List LegalNode) (html_id : Option String)

/-- Field `level`. -/
def LegalNode.level : LegalNode → Nat
  | .mk l _ _ _ _ _ => l

/-- Field `type`. -/
def LegalNode.type : LegalNode → String
  | .mk _ t _ _ _ _ => t

/-- Field `title`. -/
def LegalNode.title : LegalNode → String
  | .mk _ _ ti _ _ _ => ti

/-- Field `content`. -/
def LegalNode.content : LegalNode → List String
  | .mk _ _ _ co _ _ => co

/-- Field `children`. -/
def LegalNode.children : LegalNode → List LegalNode
  | .mk _ _ _ _ ch _ => ch

/-- Field `html_id`. -/
def LegalNode.html_id : LegalNode → Option String
  | .mk _ _ _ _ _ h => h

/-- `LegalNode.add_text`: append the stripped text if it is not
whitespace-only. -/
def LegalNode.addText : LegalNode → String → LegalNode
  | .mk l t ti co ch h, text =>
    if pyStrip text ≠ "" then .mk l t ti (co ++ [pyStrip text]) ch h
    else .mk l t ti co ch h

/-- Append a completed child (`parent.children.append(node)`, realized at
pop time in this zipper embedding of the mutable stack). -/
def addChild (p c : LegalNode) : LegalNode :=
  match p with
  | .mk l t ti co ch h => .mk l t ti co (ch ++ [c]) h

/-- Remove the last child (used when a merged sibling is pushed back onto
the stack: it is re-appended when later popped). -/
def dropLastChild (p : LegalNode) : LegalNode :=
  match p with
  | .mk l t ti co ch h => .mk l t ti co ch.dropLast h

/-- Python truthiness of the optional `html_id` (`None` and `""` are
falsy). -/
def optFalsy : Option String → Bool
  | none => true
  | some s => s = ""

/-- String starts with the given literal. -/
def strStarts (s p : String) : Bool := p.data.isPrefixOf s.data

/-- String ends with the given literal. -/
def strEnds (s p : String) : Bool := p.data.reverse.isPrefixOf s.data.reverse

/-- First character of a nonempty string (Python `text[0]`; only reached
under the source's `if not text: continue` guard). -/
def strHead (s : String) : Char :=
  match s.data with
  | c :: _ => c
  | [] => 'A'

/-- `BaseParser.detect_anchor_type`: map an anchor id prefix to a node
type; ids ending in `_name` (and falsy ids) carry no structural type. -/
def detect_anchor_type (html_id : Option String) : Option String :=
  match html_id with
  | none => none
  | some s =>
    if s = "" then none
    else if strEnds s "_name" then none
    else if strStarts s "dieu_" then some "article"
    else if strStarts s "chuong_" then some "chapter"
    else if strStarts s "phan_" then some "part"
    else if strStarts s "muc_" then some "section"
    else if strStarts s "khoan_" then some "clause"
    else none

/-- Python `rstrip('.')`: drop all trailing periods. -/
def rstripDots (l : List Char) : List Char :=
  (l.reverse.dropWhile (fun c => c = '.')).reverse

/-- Title normalization of `HierarchicalParser._is_duplicate`:
`clean_text(title).lower().rstrip('.')`. -/
def normTitle (t : String) : List Char :=
  rstripDots ((clean_text t).data.map pyToLower)

/-- `HierarchicalParser._is_duplicate`: same type, and normalized titles
equal or one a prefix of the other followed by `.`, ` ` or `:`. -/
def isDuplicate (n1 n2 : LegalNode) : Bool :=
  if n1.type ≠ n2.type then false
  else
    let t1 := normTitle n1.title
    let t2 := normTitle n2.title
    t1 = t2 ||
    (t2 ++ ['.']).isPrefixOf t1 || (t2 ++ [' ']).isPrefixOf t1 || (t2 ++ [':']).isPrefixOf t1 ||
    (t1 ++ ['.']).isPrefixOf t2 || (t1 ++ [' ']).isPrefixOf t2 || (t1 ++ [':']).isPrefixOf t2

/-- Merge of a duplicate pair (hierarchical_parser.py lines 182-192): the
existing sibling keeps the longer title, concatenates content, and takes
the new node's anchor id when its own is missing. -/
def mergeNodes (last_sibling matched_node : LegalNode) : LegalNode :=
  match last_sibling with
  | .mk l t ti co ch h =>
    let ti2 := if matched_node.title.length > ti.length then matched_node.title else ti
    let h2 := if optFalsy h && !(optFalsy matched_node.html_id) then matched_node.html_id else h
    .mk l t ti2 (co ++ matched_node.content) ch h2

/-- Pop open nodes while the top's level is `≥ L` (`while len(stack) > 1
and stack[-1].level >= matched_node.level: stack.pop()`); popping closes
the top node into its parent's children. The stack is `(top, rest)`, so
the `len > 1` guard is the nonemptiness of `rest`. -/
def popWhile (L : Nat) : LegalNode → List LegalNode → LegalNode × List LegalNode
  | c, [] => (c, [])
  | c, p :: rest => if L ≤ c.level then popWhile L (addChild p c) rest else (c, p :: rest)

/-- Close all remaining open nodes at end of parse, returning the root with
its accumulated children. -/
def closeStack : LegalNode → List LegalNode → LegalNode
  | c, [] => c
  | c, p :: rest => closeStack (addChild p c) rest

/-- One bs4 element as seen by the parse loops: cleaned-text source,
boldness (`is_bold`), and the inline anchor name if any. -/
structure Element where
  text : String
  bold : Bool
  anchor : Option String

/-- Metadata side structure: `{"recipients": [...], "signers": [...]}`. -/
structure MetaData where
  recipients : List String
  signers : List String
deriving DecidableEq

/-- Result of a `parse` call: the serialized fields `structure` (None for
empty input), `metadata` (`{}` for empty input, modelled as `none`), and
`attachments`. -/
structure ParseResult where
  structure_ : Option LegalNode
  metadata : Option MetaData
  attachments : List (String × String)

/-- Run the per-element loop. -/
def runSteps {σ : Type} (step : σ → Element → Except String σ) : σ → List Element → Except String σ
  | st, [] => .ok st
  | st, e :: es =>
    match step st e with
    | .ok st2 => runSteps step st2 es
    | .error m => .error m

/-- State of `HierarchicalParser.parse`. -/
structure HState where
  stack : List LegalNode
  metadata : MetaData
  attachments : List (String × List String)
  is_parsing_appendices : Bool
  is_parsing_metadata : Bool

/-- State of the Decision/Directive/Plan parse loops (no appendix phase). -/
structure SState where
  stack : List LegalNode
  metadata : MetaData
  is_parsing_metadata : Bool

/-- Metadata-phase break test of hierarchical_parser.py line 94: any
pattern other than recipients/signature/loose_numbering/point matches. -/
def hierMetaBreak (text : String) : Bool :=
  matchPart text || matchChapter text || matchSection text || matchArticle text ||
  matchAppendix text

/-- Metadata-phase line routing of hierarchical_parser.py lines 98-101:
short lines starting with an uppercase letter or a dash go to signers,
remaining dash lines to recipients. -/
def hierMetaAppend (st : HState) (text : String) : HState :=
  if decide (text.length < 50) && (pyIsUpper (strHead text) || strStarts text "-") then
    { st with metadata := { st.metadata with signers := st.metadata.signers ++ [text] } }
  else if strStarts text "-" then
    { st with metadata := { st.metadata with recipients := st.metadata.recipients ++ [text] } }
  else st

/-- Append to the content of the last attachment
(`attachments[-1]["content"].append(text)`, guarded by `if attachments:`). -/
def appendLastContent : List (String × List String) → String → List (String × List String)
  | [], _ => []
  | [a], text => [(a.1, a.2 ++ [text])]
  | a :: b :: rest, text => a :: appendLastContent (b :: rest) text

/-- Structural classification of `HierarchicalParser.parse` (lines
126-168): anchor type first, then regexes.  Returns the matched node, and
a flag recording whether the loose-numbering `else` branch already
appended the raw text to the open node (in which case the final `else` of
the loop appends it a second time, as the source does). -/
def hierMatch (topType : String) (text : String) (is_bold : Bool)
    (anchor_type : Option String) (html_id : Option String) : Option LegalNode × Bool :=
  match anchor_type with
  | some "part" => (some (.mk 1 "part" text [] [] html_id), false)
  | some "chapter" => (some (.mk 2 "chapter" text [] [] html_id), false)
  | some "section" => (some (.mk 3 "section" text [] [] html_id), false)
  | some "article" => (some (.mk 4 "article" text [] [] html_id), false)
  | some "clause" => (some (.mk 5 "clause" text [] [] html_id), false)
  | _ =>
    if matchPart text && is_bold then (some (.mk 1 "part" text [] [] html_id), false)
    else if matchChapter text && is_bold then (some (.mk 2 "chapter" text [] [] html_id), false)
    else if matchSection text && is_bold then (some (.mk 3 "section" text [] [] html_id), false)
    else if matchArticle text then (some (.mk 4 "article" text [] [] html_id), false)
    else match matchLoose text with
      | some (number, content) =>
        if topType = "clause" || topType = "point" then
          (some ((LegalNode.mk 5 "clause" number [] [] none).addText content), false)
        else if topType = "article" then
          (some ((LegalNode.mk 5 "clause" number [] [] none).addText content), false)
        else (none, true)
      | none =>
        if matchPoint text then (some (.mk 6 "point" text [] [] html_id), false)
        else (none, false)

/-- Stack update shared by the classification outcomes that have no
duplicate check: push the matched node after popping to its parent, or
append text to the open node (twice when the loose-numbering `else` branch
already did). -/
def structStep (text : String) (mn : Option LegalNode × Bool)
    (top : LegalNode) (rest : List LegalNode) : List LegalNode :=
  match mn with
  | (some node, _) =>
    let pr := popWhile node.level top rest
    node :: pr.1 :: pr.2
  | (none, preAdd) =>
    ((if preAdd then top.addText text else top).addText text) :: rest

/-- One iteration of the `HierarchicalParser.parse` loop. -/
def hierStep (st : HState) (el : Element) : Except String HState :=
  let text := clean_text el.text
  if text = "" then .ok st
  else
    let is_bold := el.bold
    let html_id := el.anchor
    let anchor_type := detect_anchor_type html_id
    if matchRecipients text then
      .ok { st with is_parsing_metadata := true,
                    metadata := { st.metadata with recipients := st.metadata.recipients ++ [text] } }
    else if matchSignature text && (decide (text.length < 100) || is_bold) then
      .ok { st with is_parsing_metadata := true,
                    metadata := { st.metadata with signers := st.metadata.signers ++ [text] } }
    else if st.is_parsing_metadata && !(anchor_type.isSome || hierMetaBreak text) then
      .ok (hierMetaAppend st text)
    else
      let st1 := { st with is_parsing_metadata := false }
      if matchAppendix text && (is_bold || decide (text.length < 100)) then
        .ok { st1 with is_parsing_appendices := true,
                       attachments := st1.attachments ++ [(text, [])] }
      else if st1.is_parsing_appendices then
        if matchRecipients text || matchSignature text then
          if matchRecipients text then
            .ok { st1 with is_parsing_appendices := false, is_parsing_metadata := true,
                           metadata := { st1.metadata with recipients := st1.metadata.recipients ++ [text] } }
          else
            .ok { st1 with is_parsing_appendices := false, is_parsing_metadata := true,
                           metadata := { st1.metadata with signers := st1.metadata.signers ++ [text] } }
        else
          .ok { st1 with attachments := appendLastContent st1.attachments text }
      else
        match st1.stack with
        | [] => .error "IndexError: list index out of range"
        | top :: rest =>
          match hierMatch top.type text is_bold anchor_type html_id with
          | (some node, _) =>
            let pr := popWhile node.level top rest
            let parent := pr.1
            match parent.children.getLast? with
            | some last_sibling =>
              if isDuplicate last_sibling node then
                .ok { st1 with stack := mergeNodes last_sibling node :: dropLastChild parent :: pr.2 }
              else
                .ok { st1 with stack := node :: parent :: pr.2 }
            | none => .ok { st1 with stack := node :: parent :: pr.2 }
          | (none, preAdd) =>
            .ok { st1 with stack := ((if preAdd then top.addText text else top).addText text) :: rest }

/-- `HierarchicalParser.parse`, abstracted over the bs4 line extraction. -/
def HierarchicalParser.parse (extract : String → List Element)
    (html_content : String) (title : String) : Except String ParseResult :=
  if html_content = "" then .ok ⟨none, none, []⟩
  else
    match runSteps hierStep
      ⟨[LegalNode.mk 0 "document" title [] [] none], ⟨[], []⟩, [], false, false⟩
      (extract html_content) with
    | .ok st =>
      match st.stack with
      | top :: rest =>
        .ok ⟨some (closeStack top rest), some st.metadata,
             st.attachments.map (fun a => (a.1, String.intercalate "\n" a.2))⟩
      | [] => .error "IndexError: list index out of range"
    | .error m => .error m

/-- One iteration of the `DecisionParser.parse` loop. -/
def decStep (st : SState) (el : Element) : Except String SState :=
  let text := clean_text el.text
  if text = "" then .ok st
  else
    let is_bold := el.bold
    let html_id := el.anchor
    let anchor_type := detect_anchor_type html_id
    if matchRecipients text then
      .ok { st with is_parsing_metadata := true,
                    metadata := { st.metadata with recipients := st.metadata.recipients ++ [text] } }
    else if matchSignature text && (decide (text.length < 100) || is_bold) then
      .ok { st with is_parsing_metadata := true,
                    metadata := { st.metadata with signers := st.metadata.signers ++ [text] } }
    else if st.is_parsing_metadata && !(anchor_type.isSome || matchArticle text) then
      .ok (if text.length < 60 then
             { st with metadata := { st.metadata with signers := st.metadata.signers ++ [text] } }
           else st)
    else
      let st1 := { st with is_parsing_metadata := false }
      match st1.stack with
      | [] => .error "IndexError: list index out of range"
      | top :: rest =>
        let mn : Option LegalNode × Bool :=
          if anchor_type = some "article" then (some (.mk 4 "article" text [] [] html_id), false)
          else if matchArticle text then (some (.mk 4 "article" text [] [] html_id), false)
          else match matchLoose text with
            | some (number, content) =>
              if top.type = "article" || top.type = "clause" || top.type = "point" then
                (some ((LegalNode.mk 5 "clause" number [] [] none).addText content), false)
              else (none, true)
            | none =>
              if matchPoint text then (some (.mk 6 "point" text [] [] html_id), false)
              else (none, false)
        .ok { st1 with stack := structStep text mn top rest }

/-- `DecisionParser.parse`, abstracted over the bs4 line extraction. -/
def DecisionParser.parse (extract : String → List Element)
    (html_content : String) (title : String) : Except String ParseResult :=
  if html_content = "" then .ok ⟨none, none, []⟩
  else
    match runSteps decStep ⟨[LegalNode.mk 0 "document" title [] [] none], ⟨[], []⟩, false⟩
      (extract html_content) with
    | .ok st =>
      match st.stack with
      | top :: rest => .ok ⟨some (closeStack top rest), some st.metadata, []⟩
      | [] => .error "IndexError: list index out of range"
    | .error m => .error m

/-- One iteration of the `DirectiveParser.parse` loop (no anchor handling;
once in the metadata phase it never returns to the body). -/
def dirStep (st : SState) (el : Element) : Except String SState :=
  let text := clean_text el.text
  if text = "" then .ok st
  else
    let is_bold := el.bold
    if matchRecipients text then
      .ok { st with is_parsing_metadata := true,
                    metadata := { st.metadata with recipients := st.metadata.recipients ++ [text] } }
    else if matchSignature text && (decide (text.length < 100) || is_bold) then
      .ok { st with is_parsing_metadata := true,
                    metadata := { st.metadata with signers := st.metadata.signers ++ [text] } }
    else if st.is_parsing_metadata then
      .ok (if text.length < 60 then
             { st with metadata := { st.metadata with signers := st.metadata.signers ++ [text] } }
           else st)
    else
      match st.stack with
      | [] => .error "IndexError: list index out of range"
      | top :: rest =>
        let mn : Option LegalNode × Bool :=
          match matchLoose text with
          | some (number, content) =>
            if top.type = "document" then
              (some ((LegalNode.mk 4 "item" number [] [] none).addText content), false)
            else if top.type = "item" || top.type = "subitem" then
              if number.data.contains '.' then
                (some ((LegalNode.mk 5 "subitem" number [] [] none).addText content), false)
              else
                (some ((LegalNode.mk 4 "item" number [] [] none).addText content), false)
            else (none, true)
          | none =>
            if matchPoint text then (some (.mk 6 "point" text [] [] none), false)
            else (none, false)
        .ok { st with stack := structStep text mn top rest }

/-- `DirectiveParser.parse`, abstracted over the bs4 line extraction. -/
def DirectiveParser.parse (extract : String → List Element)
    (html_content : String) (title : String) : Except String ParseResult :=
  if html_content = "" then .ok ⟨none, none, []⟩
  else
    match runSteps dirStep ⟨[LegalNode.mk 0 "document" title [] [] none], ⟨[], []⟩, false⟩
      (extract html_content) with
    | .ok st =>
      match st.stack with
      | top :: rest => .ok ⟨some (closeStack top rest), some st.metadata, []⟩
      | [] => .error "IndexError: list index out of range"
    | .error m => .error m

/-- One iteration of the `PlanParser.parse` loop.  Note the source builds
its Roman-numeral section nodes with `LegalNode(2, "section", ...)`. -/
def planStep (st : SState) (el : Element) : Except String SState :=
  let text := clean_text el.text
  if text = "" then .ok st
  else
    let is_bold := el.bold
    if matchRecipients text then
      .ok { st with is_parsing_metadata := true,
                    metadata := { st.metadata with recipients := st.metadata.recipients ++ [text] } }
    else if matchSignature text && (decide (text.length < 100) || is_bold) then
      .ok { st with is_parsing_metadata := true,
                    metadata := { st.metadata with signers := st.metadata.signers ++ [text] } }
    else if st.is_parsing_metadata then
      .ok (if text.length < 60 then
             { st with metadata := { st.metadata with signers := st.metadata.signers ++ [text] } }
           else st)
    else
      match st.stack with
      | [] => .error "IndexError: list index out of range"
      | top :: rest =>
        let mn : Option LegalNode × Bool :=
          match matchRoman text, is_bold with
          | some rg, true => (some (.mk 2 "section" (rg.1 ++ ". " ++ rg.2) [] [] none), false)
          | _, _ =>
            match matchLoose text with
            | some (number, content) =>
              if top.type = "section" || top.type = "item" || top.type = "point" then
                (some ((LegalNode.mk 4 "item" number [] [] none).addText content), false)
              else (none, true)
            | none =>
              if matchPoint text then (some (.mk 6 "point" text [] [] none), false)
              else (none, false)
        .ok { st with stack := structStep text mn top rest }

/-- `PlanParser.parse`, abstracted over the bs4 line extraction. -/
def PlanParser.parse (extract : String → List Element)
    (html_content : String) (title : String) : Except String ParseResult :=
  if html_content = "" then .ok ⟨none, none, []⟩
  else
    match runSteps planStep ⟨[LegalNode.mk 0 "document" title [] [] none], ⟨[], []⟩, false⟩
      (extract html_content) with
    | .ok st =>
      match st.stack with
      | top :: rest => .ok ⟨some (closeStack top rest), some st.metadata, []⟩
      | [] => .error "IndexError: list index out of range"
    | .error m => .error m

/-- Root of a parse result, if any. -/
def resRoot : Except String ParseResult → Option LegalNode
  | .ok r => r.structure_
  | .error _ => none

/-- Navigate a child path from an optional node. -/
def nodeAt : Option LegalNode → List Nat → Option LegalNode
  | n, [] => n
  | some n, i :: is => nodeAt (n.children.get? i) is
  | none, _ :: _ => none

/-- Title of the node at a child path of the result tree. -/
def titleAt (r : Except String ParseResult) (p : List Nat) : Option String :=
  (nodeAt (resRoot r) p).map LegalNode.title

/-- Level of the node at a child path of the result tree. -/
def levelAt (r : Except String ParseResult) (p : List Nat) : Option Nat :=
  (nodeAt (resRoot r) p).map LegalNode.level

/-- Type of the node at a child path of the result tree. -/
def typeAt (r : Except String ParseResult) (p : List Nat) : Option String :=
  (nodeAt (resRoot r) p).map LegalNode.type

/-- Content of the node at a child path of the result tree. -/
def contentAt (r : Except String ParseResult) (p : List Nat) : Option (List String) :=
  (nodeAt (resRoot r) p).map LegalNode.content

/-- Number of children of the node at a child path of the result tree. -/
def childCountAt (r : Except String ParseResult) (p : List Nat) : Option Nat :=
  (nodeAt (resRoot r) p).map (fun n => n.children.length)

/-- Anchor id of the node at a child path of the result tree. -/
def htmlIdAt (r : Except String ParseResult) (p : List Nat) : Option (Option String) :=
  (nodeAt (resRoot r) p).map LegalNode.html_id

/-- Recipients list of the result metadata. -/
def resRecipients : Except String ParseResult → Option (List String)
  | .ok r => r.metadata.map MetaData.recipients
  | .error _ => none

/-- Signers list of the result metadata. -/
def resSigners : Except String ParseResult → Option (List String)
  | .ok r => r.metadata.map MetaData.signers
  | .error _ => none

mutual
/-- Level monotonicity of a subtree: every child's level strictly exceeds
its parent's, recursively (spec §3 invariant / §8 "Level monotonicity"). -/
def nodeMono : LegalNode → Bool
  | .mk l _ _ _ ch _ => childrenMono l ch
/-- Level monotonicity of a child list under a parent level. -/
def childrenMono : Nat → List LegalNode → Bool
  | _, [] => true
  | l, c :: cs => (decide (l < c.level) && nodeMono c) && childrenMono l cs
end

/-- A content entry as produced by `add_text`: nonempty and fixed by
`strip()`. -/
def entryOK (s : String) : Bool := decide (s ≠ "") && decide (pyStrip s = s)

mutual
/-- Content invariant of a subtree: every content string of every node is
nonempty and carries no leading or trailing whitespace. -/
def nodeContentOK : LegalNode → Bool
  | .mk _ _ _ co ch _ => co.all entryOK && childrenContentOK ch
/-- Content invariant of a child list. -/
def childrenContentOK : List LegalNode → Bool
  | [] => true
  | c :: cs => nodeContentOK c && childrenContentOK cs
end

/-- Stack levels strictly increase from bottom to top (here: strictly
decrease from head = top towards the root). -/
def stackChain : List LegalNode → Bool
  | [] => true
  | [_] => true
  | c :: p :: rest => decide (p.level < c.level) && stackChain (p :: rest)

/-- The bottom of the stack is a level-0 node (the root). -/
def stackLast0 : List LegalNode → Bool
  | [] => false
  | [r] => decide (r.level = 0)
  | _ :: p :: rest => stackLast0 (p :: rest)

/-- Invariant maintained by all four parse loops: nonempty stack of
strictly decreasing levels rooted at level 0, all of whose members have
level-monotone subtrees with well-formed content. -/
def StackInv (s : List LegalNode) : Prop :=
  stackChain s = true ∧ stackLast0 s = true ∧
  ∀ n ∈ s, nodeMono n = true ∧ nodeContentOK n = true

/-- Success test on a parse outcome. -/
def isOkB {α : Type} : Except String α → Bool
  | .ok _ => true
  | .error _ => false

/-- The tree returned by a successful parse (if any) is level-monotone;
errors and the empty-input result (no tree) hold vacuously. -/
def resultMono : Except String ParseResult → Bool
  | .ok r =>
    match r.structure_ with
    | some n => nodeMono n
    | none => true
  | .error _ => true

/-- The tree returned by a successful parse (if any) has well-formed
content everywhere. -/
def resultContentOK : Except String ParseResult → Bool
  | .ok r =>
    match r.structure_ with
    | some n => nodeContentOK n
    | none => true
  | .error _ => true

/-- Extracted lines of the C5 metadata-routing scenario: an article header
followed by the three footer lines. -/
def c5Elements : List Element :=
  [⟨"Điều 1. ABC", false, none⟩, ⟨"Nơi nhận:", false, none⟩,
   ⟨"- Như trên;", false, none⟩, ⟨"TM. CHÍNH PHỦ", false, none⟩]

/-- Result of the hierarchical parse of the C5 scenario. -/
def c5res : Except String ParseResult :=
  HierarchicalParser.parse (fun _ => c5Elements) "x" "T"

/-- Extracted lines of the C6 nesting scenario under the Decision
profile. -/
def c6Elements : List Element :=
  [⟨"Điều 1. ABC", false, none⟩, ⟨"1. xyz", false, none⟩, ⟨"a) foo", false, none⟩]

/-- Result of the decision parse of the C6 scenario. -/
def c6res : Except String ParseResult :=
  DecisionParser.parse (fun _ => c6Elements) "x" "T"

/-- Result of the plan parse of a single bold Roman-numeral section
line. -/
def c7res : Except String ParseResult :=
  PlanParser.parse (fun _ => [⟨"I. Mục tiêu", true, none⟩]) "x" "T"

/-- Result of the hierarchical parse of a bold `Mục` section line. -/
def c7resHier : Except String ParseResult :=
  HierarchicalParser.parse (fun _ => [⟨"Mục 1. Đối tượng", true, none⟩]) "x" "T"

/-- Delimiter-bounded prefix, as the spec words it: the shorter normalized
title followed by `'.'`, `' '` or `':'` is a prefix of the longer one. -/
def boundedPrefixOf (short long : List Char) : Bool :=
  ['.', ' ', ':'].any fun d => (short ++ [d]).isPrefixOf long

/-- Duplicate condition as the claim states it: same type, and normalized
titles (cleaned, lower-cased, trailing periods stripped) equal or one a
delimiter-bounded prefix of the other. -/
def specDuplicate (n1 n2 : LegalNode) : Bool :=
  decide (n1.type = n2.type) &&
  (decide (normTitle n1.title = normTitle n2.title) ||
   boundedPrefixOf (normTitle n2.title) (normTitle n1.title) ||
   boundedPrefixOf (normTitle n1.title) (normTitle n2.title))

/-- Extracted lines of the C4 duplicate-merge scenario: the chapter header
rendered twice, then an article. -/
def c4Elements : List Element :=
  [⟨"CHƯƠNG I", true, none⟩, ⟨"CHƯƠNG I", true, none⟩, ⟨"Điều 1. X", false, none⟩]

/-- Result of the hierarchical parse of the C4 scenario. -/
def c4res : Except String ParseResult :=
  HierarchicalParser.parse (fun _ => c4Elements) "x" "T"

/-- Hierarchical parse of the anchored article line `<a name="dieu_5">`
wrapping "Điều 5. Quy định chung". -/
def c8res : Except String ParseResult :=
  HierarchicalParser.parse (fun _ => [⟨"Điều 5. Quy định chung", true, some "dieu_5"⟩]) "x" "T"

/-- Hierarchical parse of a bold line matching the chapter regex but
carrying a `dieu_` anchor: the anchor wins. -/
def c8resAnchorWins : Except String ParseResult :=
  HierarchicalParser.parse (fun _ => [⟨"Chương I", true, some "dieu_7"⟩]) "x" "T"

theorem nodeMono_mk (l : Nat) (t ti : String) (co : List String)
    (ch : List LegalNode) (h : Option String) :
    nodeMono (.mk l t ti co ch h) = childrenMono l ch := by
  simp [nodeMono]

theorem childrenMono_cons (l : Nat) (a : LegalNode) (as : List LegalNode) :
    childrenMono l (a :: as) =
      ((decide (l < a.level) && nodeMono a) && childrenMono l as) := by
  simp [childrenMono]

theorem nodeContentOK_mk (l : Nat) (t ti : String) (co : List String)
    (ch : List LegalNode) (h : Option String) :
    nodeContentOK (.mk l t ti co ch h) = (co.all entryOK && childrenContentOK ch) := by
  simp [nodeContentOK]

theorem childrenContentOK_cons (a : LegalNode) (as : List LegalNode) :
    childrenContentOK (a :: as) = (nodeContentOK a && childrenContentOK as) := by
  simp [childrenContentOK]

theorem stackInv_ne_nil {s : List LegalNode} (h : StackInv s) : s ≠ [] := by
  intro e
  subst e
  simpa [stackLast0] using h.2.1

theorem childrenMono_append (l : Nat) (ch : List LegalNode) (c : LegalNode) :
    childrenMono l (ch ++ [c]) =
      (childrenMono l ch && (decide (l < c.level) && nodeMono c)) := by
  induction ch with
  | nil => simp [childrenMono]
  | cons a as ih =>
    rw [List.cons_append, childrenMono_cons, childrenMono_cons, ih]
    simp [Bool.and_assoc]

theorem childrenContentOK_append (ch : List LegalNode) (c : LegalNode) :
    childrenContentOK (ch ++ [c]) = (childrenContentOK ch && nodeContentOK c) := by
  induction ch with
  | nil => simp [childrenContentOK]
  | cons a as ih =>
    rw [List.cons_append, childrenContentOK_cons, childrenContentOK_cons, ih]
    simp [Bool.and_assoc]

theorem childrenMono_mem {l : Nat} {ch : List LegalNode}
    (h : childrenMono l ch = true) : ∀ c ∈ ch, l < c.level ∧ nodeMono c = true := by
  induction ch with
  | nil => simp
  | cons a as ih =>
    rw [childrenMono_cons, Bool.and_eq_true, Bool.and_eq_true] at h
    intro c hc
    rcases List.mem_cons.mp hc with hc | hc
    · subst hc
      exact ⟨of_decide_eq_true h.1.1, h.1.2⟩
    · exact ih h.2 c hc

theorem childrenContentOK_mem {ch : List LegalNode}
    (h : childrenContentOK ch = true) : ∀ c ∈ ch, nodeContentOK c = true := by
  induction ch with
  | nil => simp
  | cons a as ih =>
    rw [childrenContentOK_cons, Bool.and_eq_true] at h
    intro c hc
    rcases List.mem_cons.mp hc with hc | hc
    · subst hc; exact h.1
    · exact ih h.2 c hc

theorem childrenMono_dropLast {l : Nat} {ch : List LegalNode}
    (h : childrenMono l ch = true) : childrenMono l ch.dropLast = true := by
  induction ch with
  | nil => simp [childrenMono]
  | cons a as ih =>
    cases as with
    | nil => simp [childrenMono]
    | cons b bs =>
      rw [childrenMono_cons, Bool.and_eq_true] at h
      rw [List.dropLast_cons₂, childrenMono_cons, Bool.and_eq_true]
      exact ⟨h.1, ih h.2⟩

theorem childrenContentOK_dropLast {ch : List LegalNode}
    (h : childrenContentOK ch = true) : childrenContentOK ch.dropLast = true := by
  induction ch with
  | nil => simp [childrenContentOK]
  | cons a as ih =>
    cases as with
    | nil => simp [childrenContentOK]
    | cons b bs =>
      rw [childrenContentOK_cons, Bool.and_eq_true] at h
      rw [List.dropLast_cons₂, childrenContentOK_cons, Bool.and_eq_true]
      exact ⟨h.1, ih h.2⟩

theorem addChild_level (p c : LegalNode) : (addChild p c).level = p.level := by
  cases p; rfl

theorem addChild_mono {p c : LegalNode} (hp : nodeMono p = true)
    (hc : nodeMono c = true) (hl : p.level < c.level) :
    nodeMono (addChild p c) = true := by
  cases p with
  | mk l t ti co ch h =>
    rw [addChild, nodeMono_mk, childrenMono_append, Bool.and_eq_true, Bool.and_eq_true]
    rw [nodeMono_mk] at hp
    simp only [LegalNode.level] at hl
    exact ⟨hp, decide_eq_true hl, hc⟩

theorem addChild_contentOK {p c : LegalNode} (hp : nodeContentOK p = true)
    (hc : nodeContentOK c = true) : nodeContentOK (addChild p c) = true := by
  cases p with
  | mk l t ti co ch h =>
    rw [addChild, nodeContentOK_mk, childrenContentOK_append, Bool.and_eq_true,
      Bool.and_eq_true]
    rw [nodeContentOK_mk, Bool.and_eq_true] at hp
    exact ⟨hp.1, hp.2, hc⟩

theorem nodeMono_parts {n : LegalNode} (h : nodeMono n = true) :
    childrenMono n.level n.children = true := by
  cases n with
  | mk l t ti co ch hi => rw [nodeMono_mk] at h; exact h

theorem nodeContentOK_parts {n : LegalNode} (h : nodeContentOK n = true) :
    n.content.all entryOK = true ∧ childrenContentOK n.children = true := by
  cases n with
  | mk l t ti co ch hi => rw [nodeContentOK_mk, Bool.and_eq_true] at h; exact h

theorem dropLeading_head : ∀ (l : List Char) (c : Char) (cs : List Char),
    dropLeading l = c :: cs → pyIsSpace c = false := by
  intro l
  induction l with
  | nil => intro c cs h; simp [dropLeading] at h
  | cons a as ih =>
    intro c cs h
    cases hb : pyIsSpace a
    · simp only [dropLeading, hb] at h
      simp only [Bool.false_eq_true, if_false] at h
      cases h
      exact hb
    · simp only [dropLeading, hb, if_true] at h
      exact ih c cs h

theorem dropLeading_suffix (l : List Char) : ∃ k, l = k ++ dropLeading l := by
  induction l with
  | nil => exact ⟨[], rfl⟩
  | cons a as ih =>
    cases hb : pyIsSpace a
    · refine ⟨[], ?_⟩
      simp [dropLeading, hb]
    · obtain ⟨k, hk⟩ := ih
      refine ⟨a :: k, ?_⟩
      simp only [dropLeading, hb, if_true, List.cons_append, List.cons.injEq, true_and]
      exact hk

theorem dropLeading_of_head (l : List Char)
    (h : ∀ c cs, l = c :: cs → pyIsSpace c = false) : dropLeading l = l := by
  cases l with
  | nil => rfl
  | cons a as => simp [dropLeading, h a as rfl]

theorem stripL_head (l : List Char) : ∀ c cs, stripL l = c :: cs → pyIsSpace c = false := by
  intro c cs h
  exact dropLeading_head _ c cs h

theorem mem_of_getLast? {α : Type} {l : List α} {a : α} (h : l.getLast? = some a) :
    a ∈ l := by
  induction l with
  | nil => simp at h
  | cons x xs ih =>
    cases xs with
    | nil =>
      simp only [List.getLast?_singleton, Option.some.injEq] at h
      simp [h]
    | cons y ys =>
      rw [List.getLast?_cons_cons] at h
      exact List.mem_cons_of_mem _ (ih h)

theorem stripL_last (l : List Char) : ∀ c cs,
    (stripL l).reverse = c :: cs → pyIsSpace c = false := by
  intro c cs h
  have hlast : (stripL l).getLast? = some c := by
    rw [← List.head?_reverse, h]; rfl
  obtain ⟨k, hk⟩ := dropLeading_suffix (dropLeading l.reverse).reverse
  have hne : stripL l ≠ [] := by
    intro e
    rw [e] at h
    simp at h
  have hXlast : ((dropLeading l.reverse).reverse).getLast? = some c := by
    rw [hk]
    show (k ++ stripL l).getLast? = some c
    rw [List.getLast?_append_of_ne_nil _ hne]
    exact hlast
  have h2 := List.head?_reverse (dropLeading l.reverse).reverse
  rw [List.reverse_reverse] at h2
  rw [hXlast] at h2
  cases hY : dropLeading l.reverse with
  | nil => rw [hY] at h2; simp at h2
  | cons y ys =>
    rw [hY] at h2
    simp only [List.head?_cons, Option.some.injEq] at h2
    rw [← h2]
    exact dropLeading_head l.reverse y ys hY

theorem stripL_idem (l : List Char) : stripL (stripL l) = stripL l := by
  have h1 : dropLeading (stripL l).reverse = (stripL l).reverse :=
    dropLeading_of_head _ (stripL_last l)
  show dropLeading (dropLeading (stripL l).reverse).reverse = stripL l
  rw [h1, List.reverse_reverse]
  exact dropLeading_of_head _ (stripL_head l)

theorem pyStrip_idem (s : String) : pyStrip (pyStrip s) = pyStrip s := by
  simp [pyStrip, stripL_idem]

theorem entryOK_strip {t : String} (h : ¬ pyStrip t = "") : entryOK (pyStrip t) = true := by
  simp [entryOK, h, pyStrip_idem]

theorem addText_level (n : LegalNode) (t : String) : (n.addText t).level = n.level := by
  cases n
  simp only [LegalNode.addText]
  split <;> rfl

theorem addText_type (n : LegalNode) (t : String) : (n.addText t).type = n.type := by
  cases n
  simp only [LegalNode.addText]
  split <;> rfl

theorem addText_mono (n : LegalNode) (t : String) : nodeMono (n.addText t) = nodeMono n := by
  cases n
  simp only [LegalNode.addText]
  split <;> simp [nodeMono_mk]

theorem addText_contentOK {n : LegalNode} (t : String) (h : nodeContentOK n = true) :
    nodeContentOK (n.addText t) = true := by
  cases n with
  | mk l ty ti co ch hi =>
    rw [nodeContentOK_mk, Bool.and_eq_true] at h
    simp only [LegalNode.addText]
    split
    next hne =>
      rw [nodeContentOK_mk, Bool.and_eq_true, List.all_append]
      refine ⟨?_, h.2⟩
      rw [Bool.and_eq_true]
      refine ⟨h.1, ?_⟩
      simp [entryOK_strip hne]
    next =>
      rw [nodeContentOK_mk, Bool.and_eq_true]
      exact h

theorem mergeNodes_level (s n : LegalNode) : (mergeNodes s n).level = s.level := by
  cases s; rfl

theorem mergeNodes_mono (s n : LegalNode) : nodeMono (mergeNodes s n) = nodeMono s := by
  cases s
  simp [mergeNodes, nodeMono_mk]

theorem mergeNodes_contentOK {s n : LegalNode} (hs : nodeContentOK s = true)
    (hn : nodeContentOK n = true) : nodeContentOK (mergeNodes s n) = true := by
  cases s with
  | mk l t ti co ch h =>
    rw [nodeContentOK_mk, Bool.and_eq_true] at hs
    simp only [mergeNodes]
    rw [nodeContentOK_mk, Bool.and_eq_true, List.all_append]
    refine ⟨?_, hs.2⟩
    rw [Bool.and_eq_true]
    exact ⟨hs.1, (nodeContentOK_parts hn).1⟩

theorem dropLastChild_level (p : LegalNode) : (dropLastChild p).level = p.level := by
  cases p; rfl

theorem dropLastChild_mono {p : LegalNode} (h : nodeMono p = true) :
    nodeMono (dropLastChild p) = true := by
  cases p with
  | mk l t ti co ch hi =>
    rw [nodeMono_mk] at h
    simp only [dropLastChild]
    rw [nodeMono_mk]
    exact childrenMono_dropLast h

theorem dropLastChild_contentOK {p : LegalNode} (h : nodeContentOK p = true) :
    nodeContentOK (dropLastChild p) = true := by
  cases p with
  | mk l t ti co ch hi =>
    rw [nodeContentOK_mk, Bool.and_eq_true] at h
    simp only [dropLastChild]
    rw [nodeContentOK_mk, Bool.and_eq_true]
    exact ⟨h.1, childrenContentOK_dropLast h.2⟩

theorem stackChain_cons₂ (c p : LegalNode) (rest : List LegalNode) :
    stackChain (c :: p :: rest) = (decide (p.level < c.level) && stackChain (p :: rest)) := by
  simp [stackChain]

theorem stackLast0_cons₂ (c p : LegalNode) (rest : List LegalNode) :
    stackLast0 (c :: p :: rest) = stackLast0 (p :: rest) := by
  simp [stackLast0]

theorem stackChain_replace {x c : LegalNode} (l : List LegalNode) (h : x.level = c.level) :
    stackChain (x :: l) = stackChain (c :: l) := by
  cases l <;> simp [stackChain, h]

theorem stackLast0_replace {x c : LegalNode} (l : List LegalNode) (h : x.level = c.level) :
    stackLast0 (x :: l) = stackLast0 (c :: l) := by
  cases l <;> simp [stackLast0, h]

theorem stackInv_fold {c p : LegalNode} {rs : List LegalNode}
    (h : StackInv (c :: p :: rs)) : StackInv (addChild p c :: rs) := by
  obtain ⟨hch, hl0, hmem⟩ := h
  rw [stackChain_cons₂, Bool.and_eq_true] at hch
  have hpc : p.level < c.level := of_decide_eq_true hch.1
  have hmp := hmem p (by simp)
  have hmc := hmem c (by simp)
  refine ⟨?_, ?_, ?_⟩
  · rw [stackChain_replace rs (addChild_level p c)]
    exact hch.2
  · rw [stackLast0_replace rs (addChild_level p c)]
    rw [stackLast0_cons₂] at hl0
    exact hl0
  · intro n hn
    rcases List.mem_cons.mp hn with hn | hn
    · subst hn
      exact ⟨addChild_mono hmp.1 hmc.1 hpc, addChild_contentOK hmp.2 hmc.2⟩
    · exact hmem n (by simp [hn])

theorem popWhile_nil (L : Nat) (c : LegalNode) : popWhile L c [] = (c, []) := by
  simp [popWhile]

theorem popWhile_cons (L : Nat) (c p : LegalNode) (rest : List LegalNode) :
    popWhile L c (p :: rest) =
      if L ≤ c.level then popWhile L (addChild p c) rest else (c, p :: rest) := by
  simp [popWhile]

theorem popWhile_inv (L : Nat) : ∀ (rest : List LegalNode) (c : LegalNode),
    StackInv (c :: rest) →
    StackInv ((popWhile L c rest).1 :: (popWhile L c rest).2) ∧
    ((popWhile L c rest).2 = [] ∨ (popWhile L c rest).1.level < L) := by
  intro rest
  induction rest with
  | nil =>
    intro c h
    rw [popWhile_nil]
    exact ⟨h, Or.inl rfl⟩
  | cons p rs ih =>
    intro c h
    by_cases hL : L ≤ c.level
    · rw [popWhile_cons, if_pos hL]
      exact ih (addChild p c) (stackInv_fold h)
    · rw [popWhile_cons, if_neg hL]
      exact ⟨h, Or.inr (show c.level < L by omega)⟩

theorem closeStack_inv : ∀ (rest : List LegalNode) (c : LegalNode), StackInv (c :: rest) →
    nodeMono (closeStack c rest) = true ∧ nodeContentOK (closeStack c rest) = true := by
  intro rest
  induction rest with
  | nil =>
    intro c h
    exact h.2.2 c (by simp)
  | cons p rs ih =>
    intro c h
    show nodeMono (closeStack (addChild p c) rs) = true ∧
      nodeContentOK (closeStack (addChild p c) rs) = true
    exact ih (addChild p c) (stackInv_fold h)

theorem push_inv {node top : LegalNode} {rest : List LegalNode}
    (h : StackInv (top :: rest)) (hn1 : 1 ≤ node.level)
    (hnm : nodeMono node = true) (hnc : nodeContentOK node = true) :
    StackInv (node :: (popWhile node.level top rest).1 :: (popWhile node.level top rest).2) := by
  obtain ⟨hinv, hd⟩ := popWhile_inv node.level rest top h
  have hpl : (popWhile node.level top rest).1.level < node.level := by
    rcases hd with hd | hd
    · have h0 := hinv.2.1
      rw [hd] at h0
      have : (popWhile node.level top rest).1.level = 0 := by
        simpa [stackLast0] using h0
      omega
    · exact hd
  refine ⟨?_, ?_, ?_⟩
  · rw [stackChain_cons₂, Bool.and_eq_true]
    exact ⟨decide_eq_true hpl, hinv.1⟩
  · rw [stackLast0_cons₂]
    exact hinv.2.1
  · intro n hn
    rcases List.mem_cons.mp hn with hn | hn
    · subst hn; exact ⟨hnm, hnc⟩
    · exact hinv.2.2 n hn

theorem replace_top_inv {x top : LegalNode} {rest : List LegalNode}
    (h : StackInv (top :: rest)) (hl : x.level = top.level)
    (hm : nodeMono x = true) (hc : nodeContentOK x = true) : StackInv (x :: rest) := by
  refine ⟨?_, ?_, ?_⟩
  · rw [stackChain_replace rest hl]; exact h.1
  · rw [stackLast0_replace rest hl]; exact h.2.1
  · intro n hn
    rcases List.mem_cons.mp hn with hn | hn
    · subst hn; exact ⟨hm, hc⟩
    · exact h.2.2 n (List.mem_cons_of_mem _ hn)

theorem merge_inv {node top : LegalNode} {rest : List LegalNode} {sib : LegalNode}
    (h : StackInv (top :: rest)) (hnc : nodeContentOK node = true)
    (hlast : (popWhile node.level top rest).1.children.getLast? = some sib) :
    StackInv (mergeNodes sib node :: dropLastChild (popWhile node.level top rest).1
      :: (popWhile node.level top rest).2) := by
  obtain ⟨hinv, _⟩ := popWhile_inv node.level rest top h
  have hparent := hinv.2.2 (popWhile node.level top rest).1 (by simp)
  have hsibmem : sib ∈ (popWhile node.level top rest).1.children := mem_of_getLast? hlast
  have hsib := childrenMono_mem (nodeMono_parts hparent.1) sib hsibmem
  have hsibc := childrenContentOK_mem (nodeContentOK_parts hparent.2).2 sib hsibmem
  have hdl : (dropLastChild (popWhile node.level top rest).1).level =
      (popWhile node.level top rest).1.level := dropLastChild_level _
  refine ⟨?_, ?_, ?_⟩
  · rw [stackChain_cons₂, Bool.and_eq_true]
    constructor
    · rw [hdl, mergeNodes_level]
      exact decide_eq_true hsib.1
    · rw [stackChain_replace _ hdl]
      exact hinv.1
  · rw [stackLast0_cons₂, stackLast0_replace _ hdl]
    exact hinv.2.1
  · intro n hn
    rcases List.mem_cons.mp hn with hn | hn
    · subst hn
      constructor
      · rw [mergeNodes_mono]; exact hsib.2
      · exact mergeNodes_contentOK hsibc hnc
    · rcases List.mem_cons.mp hn with hn | hn
      · subst hn
        exact ⟨dropLastChild_mono hparent.1, dropLastChild_contentOK hparent.2⟩
      · exact hinv.2.2 n (List.mem_cons_of_mem _ hn)

theorem fresh_props (k : Nat) (tp ti : String) (hid : Option String) (hk : 1 ≤ k) :
    1 ≤ (LegalNode.mk k tp ti [] [] hid).level ∧
    nodeMono (LegalNode.mk k tp ti [] [] hid) = true ∧
    nodeContentOK (LegalNode.mk k tp ti [] [] hid) = true := by
  refine ⟨hk, ?_, ?_⟩
  · rw [nodeMono_mk]; simp [childrenMono]
  · rw [nodeContentOK_mk]; simp [childrenContentOK]

theorem freshAdd_props (k : Nat) (tp ti cont : String) (hk : 1 ≤ k) :
    1 ≤ ((LegalNode.mk k tp ti [] [] none).addText cont).level ∧
    nodeMono ((LegalNode.mk k tp ti [] [] none).addText cont) = true ∧
    nodeContentOK ((LegalNode.mk k tp ti [] [] none).addText cont) = true := by
  have hf := fresh_props k tp ti none hk
  refine ⟨?_, ?_, ?_⟩
  · rw [addText_level]; exact hf.1
  · rw [addText_mono]; exact hf.2.1
  · exact addText_contentOK _ hf.2.2

theorem structStep_inv {text : String} {mn : Option LegalNode × Bool}
    {top : LegalNode} {rest : List LegalNode}
    (h : StackInv (top :: rest))
    (hcl : ∀ node fl, mn = (some node, fl) →
      1 ≤ node.level ∧ nodeMono node = true ∧ nodeContentOK node = true) :
    StackInv (structStep text mn top rest) := by
  match mn with
  | (some node, fl) =>
    obtain ⟨h1, h2, h3⟩ := hcl node fl rfl
    show StackInv (node :: (popWhile node.level top rest).1 ::
      (popWhile node.level top rest).2)
    exact push_inv h h1 h2 h3
  | (none, preAdd) =>
    show StackInv (((if preAdd then top.addText text else top).addText text) :: rest)
    have htop := h.2.2 top (by simp)
    have hxl : (if preAdd then top.addText text else top).level = top.level := by
      split
      · rw [addText_level]
      · rfl
    have hxm : nodeMono (if preAdd then top.addText text else top) = true := by
      split
      · rw [addText_mono]; exact htop.1
      · exact htop.1
    have hxc : nodeContentOK (if preAdd then top.addText text else top) = true := by
      split
      · exact addText_contentOK _ htop.2
      · exact htop.2
    refine replace_top_inv h ?_ ?_ ?_
    · rw [addText_level, hxl]
    · rw [addText_mono]; exact hxm
    · exact addText_contentOK _ hxc

theorem runSteps_inv {σ : Type} (step : σ → Element → Except String σ) (P : σ → Prop)
    (hstep : ∀ st el, P st → ∃ st2, step st el = .ok st2 ∧ P st2) :
    ∀ (els : List Element) (st : σ), P st →
      ∃ fin, runSteps step st els = .ok fin ∧ P fin := by
  intro els
  induction els with
  | nil => intro st h; exact ⟨st, rfl, h⟩
  | cons e es ih =>
    intro st h
    obtain ⟨st2, he, h2⟩ := hstep st e h
    obtain ⟨fin, hf, h3⟩ := ih st2 h2
    refine ⟨fin, ?_, h3⟩
    show (match step st e with
          | .ok s => runSteps step s es
          | .error m => .error m) = .ok fin
    rw [he]
    exact hf

theorem rootInv (title : String) :
    StackInv [LegalNode.mk 0 "document" title [] [] none] := by
  refine ⟨by simp [stackChain], by simp [stackLast0, LegalNode.level], ?_⟩
  intro n hn
  rcases List.mem_singleton.mp hn with rfl
  constructor
  · rw [nodeMono_mk]; simp [childrenMono]
  · rw [nodeContentOK_mk]; simp [childrenContentOK]

theorem decStep_inv (st : SState) (el : Element) (h : StackInv st.stack) :
    ∃ st2, decStep st el = .ok st2 ∧ StackInv st2.stack := by
  unfold decStep
  dsimp only
  split
  · exact ⟨st, rfl, h⟩
  · split
    · exact ⟨_, rfl, h⟩
    · split
      · exact ⟨_, rfl, h⟩
      · split
        · refine ⟨_, rfl, ?_⟩
          split
          · exact h
          · exact h
        · split
          next heq => exact absurd heq (stackInv_ne_nil h)
          next top rest heq =>
            refine ⟨_, rfl, ?_⟩
            have h2 : StackInv (top :: rest) := heq ▸ h
            apply structStep_inv h2
            intro node fl hmn
            split at hmn
            · injection hmn with ha hb
              injection ha with ha
              subst ha
              exact fresh_props 4 _ _ _ (by omega)
            · split at hmn
              · injection hmn with ha hb
                injection ha with ha
                subst ha
                exact fresh_props 4 _ _ _ (by omega)
              · split at hmn
                · split at hmn
                  · injection hmn with ha hb
                    injection ha with ha
                    subst ha
                    exact freshAdd_props 5 _ _ _ (by omega)
                  · exact absurd hmn (by simp)
                · split at hmn
                  · injection hmn with ha hb
                    injection ha with ha
                    subst ha
                    exact fresh_props 6 _ _ _ (by omega)
                  · exact absurd hmn (by simp)

theorem dirStep_inv (st : SState) (el : Element) (h : StackInv st.stack) :
    ∃ st2, dirStep st el = .ok st2 ∧ StackInv st2.stack := by
  unfold dirStep
  dsimp only
  split
  · exact ⟨st, rfl, h⟩
  · split
    · exact ⟨_, rfl, h⟩
    · split
      · exact ⟨_, rfl, h⟩
      · split
        · refine ⟨_, rfl, ?_⟩
          split
          · exact h
          · exact h
        · split
          next heq => exact absurd heq (stackInv_ne_nil h)
          next top rest heq =>
            refine ⟨_, rfl, ?_⟩
            have h2 : StackInv (top :: rest) := heq ▸ h
            apply structStep_inv h2
            intro node fl hmn
            split at hmn
            · split at hmn
              · injection hmn with ha hb
                injection ha with ha
                subst ha
                exact freshAdd_props 4 _ _ _ (by omega)
              · split at hmn
                · split at hmn
                  · injection hmn with ha hb
                    injection ha with ha
                    subst ha
                    exact freshAdd_props 5 _ _ _ (by omega)
                  · injection hmn with ha hb
                    injection ha with ha
                    subst ha
                    exact freshAdd_props 4 _ _ _ (by omega)
                · exact absurd hmn (by simp)
            · split at hmn
              · injection hmn with ha hb
                injection ha with ha
                subst ha
                exact fresh_props 6 _ _ _ (by omega)
              · exact absurd hmn (by simp)

theorem planStep_inv (st : SState) (el : Element) (h : StackInv st.stack) :
    ∃ st2, planStep st el = .ok st2 ∧ StackInv st2.stack := by
  unfold planStep
  dsimp only
  split
  · exact ⟨st, rfl, h⟩
  · split
    · exact ⟨_, rfl, h⟩
    · split
      · exact ⟨_, rfl, h⟩
      · split
        · refine ⟨_, rfl, ?_⟩
          split
          · exact h
          · exact h
        · split
          next heq => exact absurd heq (stackInv_ne_nil h)
          next top rest heq =>
            refine ⟨_, rfl, ?_⟩
            have h2 : StackInv (top :: rest) := heq ▸ h
            apply structStep_inv h2
            intro node fl hmn
            split at hmn
            · injection hmn with ha hb
              injection ha with ha
              subst ha
              exact fresh_props 2 _ _ _ (by omega)
            · split at hmn
              · split at hmn
                · injection hmn with ha hb
                  injection ha with ha
                  subst ha
                  exact freshAdd_props 4 _ _ _ (by omega)
                · exact absurd hmn (by simp)
              · split at hmn
                · injection hmn with ha hb
                  injection ha with ha
                  subst ha
                  exact fresh_props 6 _ _ _ (by omega)
                · exact absurd hmn (by simp)

theorem hierMatch_props (tt text : String) (b : Bool) (anc hid : Option String) :
    ∀ node fl, hierMatch tt text b anc hid = (some node, fl) →
      1 ≤ node.level ∧ nodeMono node = true ∧ nodeContentOK node = true := by
  intro node fl hmn
  unfold hierMatch at hmn
  split at hmn
  · injection hmn with ha hb
    injection ha with ha
    subst ha
    exact fresh_props 1 _ _ _ (by omega)
  · injection hmn with ha hb
    injection ha with ha
    subst ha
    exact fresh_props 2 _ _ _ (by omega)
  · injection hmn with ha hb
    injection ha with ha
    subst ha
    exact fresh_props 3 _ _ _ (by omega)
  · injection hmn with ha hb
    injection ha with ha
    subst ha
    exact fresh_props 4 _ _ _ (by omega)
  · injection hmn with ha hb
    injection ha with ha
    subst ha
    exact fresh_props 5 _ _ _ (by omega)
  · split at hmn
    · injection hmn with ha hb
      injection ha with ha
      subst ha
      exact fresh_props 1 _ _ _ (by omega)
    · split at hmn
      · injection hmn with ha hb
        injection ha with ha
        subst ha
        exact fresh_props 2 _ _ _ (by omega)
      · split at hmn
        · injection hmn with ha hb
          injection ha with ha
          subst ha
          exact fresh_props 3 _ _ _ (by omega)
        · split at hmn
          · injection hmn with ha hb
            injection ha with ha
            subst ha
            exact fresh_props 4 _ _ _ (by omega)
          · split at hmn
            · split at hmn
              · injection hmn with ha hb
                injection ha with ha
                subst ha
                exact freshAdd_props 5 _ _ _ (by omega)
              · split at hmn
                · injection hmn with ha hb
                  injection ha with ha
                  subst ha
                  exact freshAdd_props 5 _ _ _ (by omega)
                · exact absurd hmn (by simp)
            · split at hmn
              · injection hmn with ha hb
                injection ha with ha
                subst ha
                exact fresh_props 6 _ _ _ (by omega)
              · exact absurd hmn (by simp)

theorem hierMetaAppend_stack (st : HState) (text : String) :
    (hierMetaAppend st text).stack = st.stack := by
  unfold hierMetaAppend
  split
  · rfl
  · split <;> rfl

theorem hierStep_inv (st : HState) (el : Element) (h : StackInv st.stack) :
    ∃ st2, hierStep st el = .ok st2 ∧ StackInv st2.stack := by
  unfold hierStep
  dsimp only
  split
  · exact ⟨st, rfl, h⟩
  · split
    · exact ⟨_, rfl, h⟩
    · split
      · exact ⟨_, rfl, h⟩
      · split
        · refine ⟨_, rfl, ?_⟩
          rw [hierMetaAppend_stack]
          exact h
        · split
          · exact ⟨_, rfl, h⟩
          · split
            · split
              · exact ⟨_, rfl, h⟩
              · exact ⟨_, rfl, h⟩
            · split
              next heq => exact absurd heq (stackInv_ne_nil h)
              next top rest heq =>
                have h2 : StackInv (top :: rest) := heq ▸ h
                split
                next node fl hmn =>
                  have hnp := hierMatch_props _ _ _ _ _ node fl hmn
                  split
                  next sib hlast =>
                    split
                    · refine ⟨_, rfl, ?_⟩
                      exact merge_inv h2 hnp.2.2 hlast
                    · refine ⟨_, rfl, ?_⟩
                      exact push_inv h2 hnp.1 hnp.2.1 hnp.2.2
                  next hlast =>
                    refine ⟨_, rfl, ?_⟩
                    exact push_inv h2 hnp.1 hnp.2.1 hnp.2.2
                next preAdd hmn =>
                  refine ⟨_, rfl, ?_⟩
                  show StackInv (structStep (clean_text el.text) (none, preAdd) top rest)
                  exact structStep_inv h2 (fun node fl hmn2 => absurd hmn2 (by simp))

theorem hier_parse_props (extract : String → List Element) (html title : String) :
    ∃ r, HierarchicalParser.parse extract html title = .ok r ∧
      ∀ root, r.structure_ = some root →
        nodeMono root = true ∧ nodeContentOK root = true := by
  unfold HierarchicalParser.parse
  split
  · refine ⟨⟨none, none, []⟩, rfl, ?_⟩
    intro root hr
    simp at hr
  · obtain ⟨fin, hf, hinv⟩ := runSteps_inv hierStep (fun st => StackInv st.stack)
      (fun st el h => hierStep_inv st el h) (extract html)
      ⟨[LegalNode.mk 0 "document" title [] [] none], ⟨[], []⟩, [], false, false⟩
      (rootInv title)
    rw [hf]
    dsimp only
    rcases hst : fin.stack with _ | ⟨top, rest⟩
    · exact absurd hst (stackInv_ne_nil hinv)
    · refine ⟨_, rfl, ?_⟩
      intro root hr
      have hr2 : closeStack top rest = root := by
        simpa using hr
      rw [← hr2]
      exact closeStack_inv rest top (hst ▸ hinv)

theorem dec_parse_props (extract : String → List Element) (html title : String) :
    ∃ r, DecisionParser.parse extract html title = .ok r ∧
      ∀ root, r.structure_ = some root →
        nodeMono root = true ∧ nodeContentOK root = true := by
  unfold DecisionParser.parse
  split
  · refine ⟨⟨none, none, []⟩, rfl, ?_⟩
    intro root hr
    simp at hr
  · obtain ⟨fin, hf, hinv⟩ := runSteps_inv decStep (fun st => StackInv st.stack)
      (fun st el h => decStep_inv st el h) (extract html)
      ⟨[LegalNode.mk 0 "document" title [] [] none], ⟨[], []⟩, false⟩
      (rootInv title)
    rw [hf]
    dsimp only
    rcases hst : fin.stack with _ | ⟨top, rest⟩
    · exact absurd hst (stackInv_ne_nil hinv)
    · refine ⟨_, rfl, ?_⟩
      intro root hr
      have hr2 : closeStack top rest = root := by
        simpa using hr
      rw [← hr2]
      exact closeStack_inv rest top (hst ▸ hinv)

theorem dir_parse_props (extract : String → List Element) (html title : String) :
    ∃ r, DirectiveParser.parse extract html title = .ok r ∧
      ∀ root, r.structure_ = some root →
        nodeMono root = true ∧ nodeContentOK root = true := by
  unfold DirectiveParser.parse
  split
  · refine ⟨⟨none, none, []⟩, rfl, ?_⟩
    intro root hr
    simp at hr
  · obtain ⟨fin, hf, hinv⟩ := runSteps_inv dirStep (fun st => StackInv st.stack)
      (fun st el h => dirStep_inv st el h) (extract html)
      ⟨[LegalNode.mk 0 "document" title [] [] none], ⟨[], []⟩, false⟩
      (rootInv title)
    rw [hf]
    dsimp only
    rcases hst : fin.stack with _ | ⟨top, rest⟩
    · exact absurd hst (stackInv_ne_nil hinv)
    · refine ⟨_, rfl, ?_⟩
      intro root hr
      have hr2 : closeStack top rest = root := by
        simpa using hr
      rw [← hr2]
      exact closeStack_inv rest top (hst ▸ hinv)

theorem plan_parse_props (extract : String → List Element) (html title : String) :
    ∃ r, PlanParser.parse extract html title = .ok r ∧
      ∀ root, r.structure_ = some root →
        nodeMono root = true ∧ nodeContentOK root = true := by
  unfold PlanParser.parse
  split
  · refine ⟨⟨none, none, []⟩, rfl, ?_⟩
    intro root hr
    simp at hr
  · obtain ⟨fin, hf, hinv⟩ := runSteps_inv planStep (fun st => StackInv st.stack)
      (fun st el h => planStep_inv st el h) (extract html)
      ⟨[LegalNode.mk 0 "document" title [] [] none], ⟨[], []⟩, false⟩
      (rootInv title)
    rw [hf]
    dsimp only
    rcases hst : fin.stack with _ | ⟨top, rest⟩
    · exact absurd hst (stackInv_ne_nil hinv)
    · refine ⟨_, rfl, ?_⟩
      intro root hr
      have hr2 : closeStack top rest = root := by
        simpa using hr
      rw [← hr2]
      exact closeStack_inv rest top (hst ▸ hinv)

theorem resultMono_of_props {p : Except String ParseResult}
    (h : ∃ r, p = .ok r ∧ ∀ root, r.structure_ = some root →
      nodeMono root = true ∧ nodeContentOK root = true) : resultMono p = true := by
  obtain ⟨r, heq, hprop⟩ := h
  rw [heq]
  show (match r.structure_ with
        | some n => nodeMono n
        | none => true) = true
  rcases hs : r.structure_ with _ | n
  · rfl
  · exact (hprop n hs).1

theorem resultContentOK_of_props {p : Except String ParseResult}
    (h : ∃ r, p = .ok r ∧ ∀ root, r.structure_ = some root →
      nodeMono root = true ∧ nodeContentOK root = true) : resultContentOK p = true := by
  obtain ⟨r, heq, hprop⟩ := h
  rw [heq]
  show (match r.structure_ with
        | some n => nodeContentOK n
        | none => true) = true
  rcases hs : r.structure_ with _ | n
  · rfl
  · exact (hprop n hs).2

theorem isOkB_of_props {p : Except String ParseResult}
    (h : ∃ r, p = .ok r ∧ ∀ root, r.structure_ = some root →
      nodeMono root = true ∧ nodeContentOK root = true) : isOkB p = true := by
  obtain ⟨r, heq, _⟩ := h
  rw [heq]
  rfl

/-- C1: for every (extracted) input and title, the `parse` method of each
of the four profile parsers (Hierarchical, Decision, Directive, Plan)
returns normally with a result — no step of the embedded loops reaches the
`IndexError` raise site — with the bs4 extraction (the "underlying
HTML-parsing library") abstracted as `extract`. -/
theorem C1_parse_total (extract : String → List Element) (html title : String) :
    isOkB (HierarchicalParser.parse extract html title) = true ∧
    isOkB (DecisionParser.parse extract html title) = true ∧
    isOkB (DirectiveParser.parse extract html title) = true ∧
    isOkB (PlanParser.parse extract html title) = true :=
  ⟨isOkB_of_props (hier_parse_props extract html title),
   isOkB_of_props (dec_parse_props extract html title),
   isOkB_of_props (dir_parse_props extract html title),
   isOkB_of_props (plan_parse_props extract html title)⟩

/-- C3: for every input and every profile parser, every child's level in
the returned tree is strictly greater than its parent's level. -/
theorem C3_level_mono (extract : String → List Element) (html title : String) :
    resultMono (HierarchicalParser.parse extract html title) = true ∧
    resultMono (DecisionParser.parse extract html title) = true ∧
    resultMono (DirectiveParser.parse extract html title) = true ∧
    resultMono (PlanParser.parse extract html title) = true :=
  ⟨resultMono_of_props (hier_parse_props extract html title),
   resultMono_of_props (dec_parse_props extract html title),
   resultMono_of_props (dir_parse_props extract html title),
   resultMono_of_props (plan_parse_props extract html title)⟩

/-- C10: for every input and every profile parser, every string in every
node's content list of the returned tree is nonempty and carries no
leading or trailing whitespace (`add_text` strips and discards
whitespace-only text). -/
theorem C10_content_wellformed (extract : String → List Element) (html title : String) :
    resultContentOK (HierarchicalParser.parse extract html title) = true ∧
    resultContentOK (DecisionParser.parse extract html title) = true ∧
    resultContentOK (DirectiveParser.parse extract html title) = true ∧
    resultContentOK (PlanParser.parse extract html title) = true :=
  ⟨resultContentOK_of_props (hier_parse_props extract html title),
   resultContentOK_of_props (dec_parse_props extract html title),
   resultContentOK_of_props (dir_parse_props extract html title),
   resultContentOK_of_props (plan_parse_props extract html title)⟩

/-- C2 counterexample: on empty HTML every parser short-circuits to
`{"structure": None, "metadata": {}, "attachments": []}` — there is no
document root node at all (`structure_ = none`, so `resRoot` is not
`some`) and no recipients/signers lists (`metadata = none`), contradicting
the claimed empty document root with empty metadata lists. -/
theorem C2_empty_input_cex :
    HierarchicalParser.parse (fun _ => []) "" "T" = .ok ⟨none, none, []⟩ ∧
    DecisionParser.parse (fun _ => []) "" "T" = .ok ⟨none, none, []⟩ ∧
    DirectiveParser.parse (fun _ => []) "" "T" = .ok ⟨none, none, []⟩ ∧
    PlanParser.parse (fun _ => []) "" "T" = .ok ⟨none, none, []⟩ ∧
    (resRoot (HierarchicalParser.parse (fun _ => []) "" "T")).isSome = false ∧
    resRecipients (HierarchicalParser.parse (fun _ => []) "" "T") = none ∧
    resSigners (HierarchicalParser.parse (fun _ => []) "" "T") = none :=
  ⟨rfl, rfl, rfl, rfl, rfl, rfl, rfl⟩

/-- C2 amended: `parse("", title)` raises no exception and returns the
fixed result whose `structure` field is `None` (no root node), whose
`metadata` field is the empty dict (no recipients/signers lists), and
whose attachments list is empty, for every profile parser. -/
theorem C2_empty_input (extract : String → List Element) (title : String) :
    HierarchicalParser.parse extract "" title = .ok ⟨none, none, []⟩ ∧
    DecisionParser.parse extract "" title = .ok ⟨none, none, []⟩ ∧
    DirectiveParser.parse extract "" title = .ok ⟨none, none, []⟩ ∧
    PlanParser.parse extract "" title = .ok ⟨none, none, []⟩ :=
  ⟨rfl, rfl, rfl, rfl⟩

/-- C5 counterexample: after `"Nơi nhận:"` opens the metadata phase, the
short dash line `"- Như trên;"` is routed to the signers list (the
`len < 50` / uppercase-or-dash branch fires first), not to recipients, so
`metadata.recipients` contains only the first line and the claimed
membership of the second line in recipients is false. -/
theorem C5_metadata_routing_cex :
    resRecipients c5res = some ["Nơi nhận:"] ∧
    resSigners c5res = some ["- Như trên;", "TM. CHÍNH PHỦ"] ∧
    ("- Như trên;" ∈ ["Nơi nhận:"] : Prop) = False := by
  refine ⟨by decide, by decide, by simp⟩

/-- C5 amended: of the three lines following the open article, the first
goes to recipients, the second and third to signers, and none of the three
appears as content under the article (whose content list stays empty). -/
theorem C5_metadata_routing :
    resRecipients c5res = some ["Nơi nhận:"] ∧
    resSigners c5res = some ["- Như trên;", "TM. CHÍNH PHỦ"] ∧
    childCountAt c5res [] = some 1 ∧
    typeAt c5res [0] = some "article" ∧
    contentAt c5res [0] = some [] ∧
    contentAt c5res [] = some [] ∧
    childCountAt c5res [0] = some 0 := by
  decide

/-- C6 counterexample: the point node created for `"a) foo"` keeps the
whole line as its title (`LegalNode(6, "point", text)`) and receives no
content, so the claimed point node with title `"a)"` and content `"foo"`
does not exist. -/
theorem C6_nesting_cex :
    titleAt c6res [0, 0, 0] = some "a) foo" ∧
    contentAt c6res [0, 0, 0] = some [] ∧
    (("a) foo" : String) = "a)") = False ∧
    (([] : List String) = ["foo"]) = False := by
  refine ⟨by decide, by decide, by simp, by simp⟩

/-- C6 amended: the Decision profile parses the three lines into the chain
document → article("Điều 1. ABC") → clause("1", content ["xyz"]) →
point("a) foo", empty content), with levels 0, 4, 5, 6. -/
theorem C6_nesting :
    levelAt c6res [] = some 0 ∧ typeAt c6res [] = some "document" ∧
    childCountAt c6res [] = some 1 ∧
    levelAt c6res [0] = some 4 ∧ typeAt c6res [0] = some "article" ∧
    titleAt c6res [0] = some "Điều 1. ABC" ∧ childCountAt c6res [0] = some 1 ∧
    levelAt c6res [0, 0] = some 5 ∧ typeAt c6res [0, 0] = some "clause" ∧
    titleAt c6res [0, 0] = some "1" ∧ contentAt c6res [0, 0] = some ["xyz"] ∧
    childCountAt c6res [0, 0] = some 1 ∧
    levelAt c6res [0, 0, 0] = some 6 ∧ typeAt c6res [0, 0, 0] = some "point" ∧
    titleAt c6res [0, 0, 0] = some "a) foo" ∧ contentAt c6res [0, 0, 0] = some [] ∧
    childCountAt c6res [0, 0, 0] = some 0 := by
  decide

/-- C7: evaluation at the failing input.  `PlanParser.parse` builds its
Roman-numeral section nodes as `LegalNode(2, "section", ...)`, so a node
of type `"section"` gets level 2 — contradicting the level mapping
(3 = section) documented on `LegalNode` itself and stated by the spec.
The Hierarchical profile does give its `Mục` sections level 3. -/
theorem C7_section_level :
    typeAt c7res [0] = some "section" ∧
    levelAt c7res [0] = some 2 ∧
    titleAt c7res [0] = some "I. Mục tiêu" ∧
    typeAt c7resHier [0] = some "section" ∧
    levelAt c7resHier [0] = some 3 := by
  decide

set_option maxHeartbeats 1600000 in
theorem isDuplicate_eq_spec (n1 n2 : LegalNode) :
    isDuplicate n1 n2 = specDuplicate n1 n2 := by
  unfold isDuplicate specDuplicate boundedPrefixOf
  dsimp only
  generalize normTitle n1.title = t1
  generalize normTitle n2.title = t2
  rw [Bool.eq_iff_iff]
  split
  next hne => simp [hne]
  next hne =>
    have ht : n1.type = n2.type := not_not.mp hne
    simp only [ht, decide_True, Bool.true_and, List.any_cons, List.any_nil,
      Bool.or_eq_true, decide_eq_true_eq, Bool.or_false]
    tauto

set_option maxHeartbeats 2000000 in
/-- C4: the duplicate test of the Hierarchical profile is exactly the
same-type plus equal-or-delimiter-bounded-prefix condition on normalized
titles (so "Điều 1" never merges with "Điều 10" but two "CHƯƠNG I"
headers do merge); the merge keeps the longer title, concatenates content,
fills a missing anchor id from the new node, and keeps the existing
sibling's level, type and children; and the existing sibling — not the new
node — is pushed back on the stack, so two adjacent bold "CHƯƠNG I" lines
yield exactly one chapter child under which the following article
attaches. -/
theorem C4_duplicate_merge :
    (∀ n1 n2 : LegalNode, isDuplicate n1 n2 = specDuplicate n1 n2) ∧
    isDuplicate (LegalNode.mk 4 "article" "Điều 1" [] [] none)
      (LegalNode.mk 4 "article" "Điều 10" [] [] none) = false ∧
    isDuplicate (LegalNode.mk 2 "chapter" "CHƯƠNG I" [] [] none)
      (LegalNode.mk 2 "chapter" "CHƯƠNG I" [] [] none) = true ∧
    (∀ s n : LegalNode,
      (mergeNodes s n).title =
        (if n.title.length > s.title.length then n.title else s.title) ∧
      (mergeNodes s n).content = s.content ++ n.content ∧
      (mergeNodes s n).html_id =
        (if optFalsy s.html_id && !optFalsy n.html_id then n.html_id else s.html_id) ∧
      (mergeNodes s n).type = s.type ∧
      (mergeNodes s n).level = s.level ∧
      (mergeNodes s n).children = s.children) ∧
    (childCountAt c4res [] = some 1 ∧ typeAt c4res [0] = some "chapter" ∧
     levelAt c4res [0] = some 2 ∧ titleAt c4res [0] = some "CHƯƠNG I" ∧
     contentAt c4res [0] = some [] ∧ childCountAt c4res [0] = some 1 ∧
     titleAt c4res [0, 0] = some "Điều 1. X" ∧ typeAt c4res [0, 0] = some "article") := by
  refine ⟨isDuplicate_eq_spec, by decide, by decide, ?_, by decide⟩
  intro s n
  cases s with
  | mk l t ti co ch h =>
    refine ⟨?_, ?_, ?_, ?_, ?_, ?_⟩ <;>
      simp [mergeNodes, LegalNode.title, LegalNode.content, LegalNode.html_id,
        LegalNode.type, LegalNode.level, LegalNode.children, optFalsy]

theorem strStarts_head_sep {s p q : String} {c d : Char} {cp dq : List Char}
    (hpd : p.data = c :: cp) (hqd : q.data = d :: dq) (hne : d ≠ c)
    (hp : strStarts s p = true) : strStarts s q = false := by
  unfold strStarts at hp ⊢
  rw [List.isPrefixOf_iff_prefix] at hp
  obtain ⟨t, ht⟩ := hp
  rw [hpd] at ht
  rw [← ht, hqd]
  simp [List.cons_append, List.isPrefixOf, hne]

theorem strStarts_ne_empty {s p : String} {c : Char} {cp : List Char}
    (hpd : p.data = c :: cp) (hp : strStarts s p = true) : ¬ s = "" := by
  intro e
  subst e
  unfold strStarts at hp
  rw [hpd, show ("" : String).data = [] from rfl] at hp
  simp [List.isPrefixOf] at hp

set_option maxHeartbeats 2000000 in
/-- C8: an anchor id starting with `dieu_` (not ending in `_name`) is
classified as an article; `chuong_`, `phan_`, `muc_`, `khoan_` map to
chapter, part, section, clause; any id ending with `_name` gives no
structural type; and in the Hierarchical parse the anchor signal takes
priority over the regex signal (a bold line matching the chapter regex
still becomes an article under a `dieu_` anchor). -/
theorem C8_anchor_precedence :
    (∀ s : String, strStarts s "dieu_" = true → strEnds s "_name" = false →
      detect_anchor_type (some s) = some "article") ∧
    (∀ s : String, strStarts s "chuong_" = true → strEnds s "_name" = false →
      detect_anchor_type (some s) = some "chapter") ∧
    (∀ s : String, strStarts s "phan_" = true → strEnds s "_name" = false →
      detect_anchor_type (some s) = some "part") ∧
    (∀ s : String, strStarts s "muc_" = true → strEnds s "_name" = false →
      detect_anchor_type (some s) = some "section") ∧
    (∀ s : String, strStarts s "khoan_" = true → strEnds s "_name" = false →
      detect_anchor_type (some s) = some "clause") ∧
    (∀ s : String, strEnds s "_name" = true → detect_anchor_type (some s) = none) ∧
    (typeAt c8res [0] = some "article" ∧ levelAt c8res [0] = some 4 ∧
     htmlIdAt c8res [0] = some (some "dieu_5") ∧
     (titleAt c8res [0]).map (fun t => strStarts t "Điều 5") = some true ∧
     matchChapter "Chương I" = true ∧
     typeAt c8resAnchorWins [0] = some "article" ∧
     htmlIdAt c8resAnchorWins [0] = some (some "dieu_7")) := by
  have hdieu : ("dieu_" : String).data = 'd' :: ['i', 'e', 'u', '_'] := rfl
  have hchuong : ("chuong_" : String).data = 'c' :: ['h', 'u', 'o', 'n', 'g', '_'] := rfl
  have hphan : ("phan_" : String).data = 'p' :: ['h', 'a', 'n', '_'] := rfl
  have hmuc : ("muc_" : String).data = 'm' :: ['u', 'c', '_'] := rfl
  have hkhoan : ("khoan_" : String).data = 'k' :: ['h', 'o', 'a', 'n', '_'] := rfl
  refine ⟨?_, ?_, ?_, ?_, ?_, ?_, ?_⟩
  · intro s hs he
    have hne := strStarts_ne_empty hdieu hs
    simp [detect_anchor_type, hne, he, hs]
  · intro s hs he
    have hne := strStarts_ne_empty hchuong hs
    have h1 := strStarts_head_sep hchuong hdieu (by decide) hs
    simp [detect_anchor_type, hne, he, hs, h1]
  · intro s hs he
    have hne := strStarts_ne_empty hphan hs
    have h1 := strStarts_head_sep hphan hdieu (by decide) hs
    have h2 := strStarts_head_sep hphan hchuong (by decide) hs
    simp [detect_anchor_type, hne, he, hs, h1, h2]
  · intro s hs he
    have hne := strStarts_ne_empty hmuc hs
    have h1 := strStarts_head_sep hmuc hdieu (by decide) hs
    have h2 := strStarts_head_sep hmuc hchuong (by decide) hs
    have h3 := strStarts_head_sep hmuc hphan (by decide) hs
    simp [detect_anchor_type, hne, he, hs, h1, h2, h3]
  · intro s hs he
    have hne := strStarts_ne_empty hkhoan hs
    have h1 := strStarts_head_sep hkhoan hdieu (by decide) hs
    have h2 := strStarts_head_sep hkhoan hchuong (by decide) hs
    have h3 := strStarts_head_sep hkhoan hphan (by decide) hs
    have h4 := strStarts_head_sep hkhoan hmuc (by decide) hs
    simp [detect_anchor_type, hne, he, hs, h1, h2, h3, h4]
  · intro s he
    by_cases hse : s = ""
    · simp [detect_anchor_type, hse]
    · simp [detect_anchor_type, hse, he]
  · decide

/-- Witness for C8 at concrete anchor ids. -/
theorem C8_anchor_precedence_witness :
    (strStarts "dieu_5" "dieu_" = true ∧ strEnds "dieu_5" "_name" = false ∧
      detect_anchor_type (some "dieu_5") = some "article") ∧
    (strEnds "dieu_1_name" "_name" = true ∧
      detect_anchor_type (some "dieu_1_name") = none) :=
  ⟨⟨by decide, by decide, C8_anchor_precedence.1 "dieu_5" (by decide) (by decide)⟩,
   ⟨by decide, (C8_anchor_precedence.2.2.2.2.2.1) "dieu_1_name" (by decide)⟩⟩

/-- C9: parsing is deterministic.  The embedded `parse` functions are pure
(the model has no mutable state: the PATTERNS table is a fixed set of
definitions and the loops thread their state explicitly), so two calls on
identical inputs give identical results; moreover the result depends only
on the inputs: any two extraction functions and HTML strings that agree on
emptiness and on the extracted element list yield identical output, for
each of the four profile parsers. -/
theorem C9_determinism :
    (∀ (extract : String → List Element) (html title : String),
      HierarchicalParser.parse extract html title = HierarchicalParser.parse extract html title ∧
      DecisionParser.parse extract html title = DecisionParser.parse extract html title ∧
      DirectiveParser.parse extract html title = DirectiveParser.parse extract html title ∧
      PlanParser.parse extract html title = PlanParser.parse extract html title) ∧
    (∀ (e1 e2 : String → List Element) (h1 h2 t : String),
      e1 h1 = e2 h2 → (h1 = "" ↔ h2 = "") →
      HierarchicalParser.parse e1 h1 t = HierarchicalParser.parse e2 h2 t ∧
      DecisionParser.parse e1 h1 t = DecisionParser.parse e2 h2 t ∧
      DirectiveParser.parse e1 h1 t = DirectiveParser.parse e2 h2 t ∧
      PlanParser.parse e1 h1 t = PlanParser.parse e2 h2 t) := by
  constructor
  · intro extract html title
    exact ⟨rfl, rfl, rfl, rfl⟩
  · intro e1 e2 h1 h2 t hext hiff
    refine ⟨?_, ?_, ?_, ?_⟩
    · unfold HierarchicalParser.parse
      by_cases hc : h1 = ""
      · rw [if_pos hc, if_pos (hiff.mp hc)]
      · rw [if_neg hc, if_neg (fun hh => hc (hiff.mpr hh)), hext]
    · unfold DecisionParser.parse
      by_cases hc : h1 = ""
      · rw [if_pos hc, if_pos (hiff.mp hc)]
      · rw [if_neg hc, if_neg (fun hh => hc (hiff.mpr hh)), hext]
    · unfold DirectiveParser.parse
      by_cases hc : h1 = ""
      · rw [if_pos hc, if_pos (hiff.mp hc)]
      · rw [if_neg hc, if_neg (fun hh => hc (hiff.mpr hh)), hext]
    · unfold PlanParser.parse
      by_cases hc : h1 = ""
      · rw [if_pos hc, if_pos (hiff.mp hc)]
      · rw [if_neg hc, if_neg (fun hh => hc (hiff.mpr hh)), hext]

/-- Witness for C9 at a concrete input. -/
theorem C9_determinism_witness :
    ((fun _ => ([] : List Element)) "x" = (fun _ => ([] : List Element)) "x") ∧
    (("x" : String) = "" ↔ ("x" : String) = "") ∧
    HierarchicalParser.parse (fun _ => []) "x" "T" =
      HierarchicalParser.parse (fun _ => []) "x" "T" :=
  ⟨rfl, Iff.rfl, (C9_determinism.2 (fun _ => []) (fun _ => []) "x" "x" "T" rfl Iff.rfl).1⟩
